import Mathlib

/-!
Shallow embedding of the consensus-scoring pipeline of
`src/Scripts/ensemble_consensus.py`, together with a verification of the
frozen claims about it.

The script's own logic (`calculate_consensus_similarity`,
`calculate_prompt_similarity`, `calculate_repetition_rate`,
`calculate_metrics`) is translated directly.  The two library routines it
calls, scikit-learn's `TfidfVectorizer` (with its default settings:
lowercasing, token pattern `\w\w+`, smooth inverse document frequency
`ln((1+n)/(1+df)) + 1`, L2 row normalisation) and
`sklearn.metrics.pairwise.cosine_similarity` (L2-normalise the rows, with
zero norms replaced by 1, then take dot products), are embedded over `ℝ`
following their documented behaviour.  `TfidfVectorizer.fit_transform`
raises `ValueError` ("empty vocabulary") when its corpus contains no
recognisable token; this is modelled by `Except`.

Machine floats are modelled by `ℝ`.  Python's `round(x, 4)` rounds half to
even; it is modelled with Mathlib's `round` (half up); no statement below
distinguishes the two at a tie.
-/

/-! ## Tokenisation -/

/-- Split a character list at separator characters (those where `sep` is
`true`), dropping the separators and returning the maximal separator-free
chunks.  `acc` holds the (reversed) chunk currently being read.  With
`sep := Char.isWhitespace` this is Python's `str.split()`. -/
def splitAcc (sep : Char → Bool) : List Char → List Char → List (List Char)
  | [], acc => if acc = [] then [] else [acc.reverse]
  | c :: cs, acc =>
    if sep c then
      if acc = [] then splitAcc sep cs []
      else acc.reverse :: splitAcc sep cs []
    else splitAcc sep cs (c :: acc)

def splitChars (sep : Char → Bool) (l : List Char) : List (List Char) :=
  splitAcc sep l []

/-- Python's `str.lower()` (restricted, like `Char.toLower`, to ASCII). -/
def lowerStr (s : String) : String := String.mk (s.data.map Char.toLower)

/-- `text.lower().split()` from `calculate_repetition_rate`. -/
def pyWords (s : String) : List String :=
  (splitChars Char.isWhitespace (lowerStr s).data).map String.mk

/-- A word character of scikit-learn's default token pattern `\w`. -/
def isWordChar (c : Char) : Bool := c.isAlphanum || c == '_'

/-- The tokens `TfidfVectorizer` extracts from a document: lowercase, then
take the maximal runs of word characters that are at least two characters
long (the default token pattern `(?u)\b\w\w+\b`). -/
def skTokens (s : String) : List String :=
  ((splitChars (fun c => !isWordChar c) (lowerStr s).data).filter
    (fun w => 2 ≤ w.length)).map String.mk

/-! ## The TF-IDF vector space and cosine similarity -/

/-- The token lists of the candidate texts, in mapping order
(`text_list = list(texts.values())` after tokenisation). -/
def docsOf (texts : List (String × String)) : List (List String) :=
  texts.map (fun nb => skTokens nb.2)

/-- The fitted vocabulary: every token occurring in the corpus. -/
def vocab (docs : List (List String)) : Finset String :=
  docs.flatten.toFinset

/-- Raw term frequency of term `t` in document `d`. -/
def tf (t : String) (d : List String) : ℕ := d.count t

/-- Document frequency: in how many corpus documents `t` occurs. -/
def df (t : String) (docs : List (List String)) : ℕ :=
  docs.countP (fun d => d.contains t)

/-- Smooth inverse document frequency, scikit-learn's default:
`ln((1 + n)/(1 + df)) + 1`. -/
noncomputable def idf (t : String) (docs : List (List String)) : ℝ :=
  Real.log ((1 + (docs.length : ℝ)) / (1 + (df t docs : ℝ))) + 1

/-- The unnormalised TF-IDF row of document `d`, as a function on terms. -/
noncomputable def rawTfidf (docs : List (List String)) (d : List String) :
    String → ℝ :=
  fun t => (tf t d : ℝ) * idf t docs

noncomputable def dotp (V : Finset String) (u v : String → ℝ) : ℝ :=
  ∑ t in V, u t * v t

noncomputable def normSq (V : Finset String) (v : String → ℝ) : ℝ :=
  ∑ t in V, v t ^ 2

/-- L2 row normalisation as scikit-learn performs it (`normalize`): rows of
norm zero are left unchanged, every other row is divided by its norm. -/
noncomputable def l2n (V : Finset String) (v : String → ℝ) : String → ℝ :=
  if Real.sqrt (normSq V v) = 0 then v
  else fun t => v t / Real.sqrt (normSq V v)

/-- The TF-IDF row of `d` in the space fitted on `docs` (L2-normalised, as
`TfidfVectorizer` returns it with its default `norm='l2'`). -/
noncomputable def tfidfRow (docs : List (List String)) (d : List String) :
    String → ℝ :=
  l2n (vocab docs) (rawTfidf docs d)

/-- `sklearn.metrics.pairwise.cosine_similarity` of the TF-IDF rows of two
documents of the corpus `docs`: it L2-normalises both rows (zero rows
staying zero) and takes their dot product. -/
noncomputable def cosineSim (docs : List (List String))
    (d₁ d₂ : List String) : ℝ :=
  dotp (vocab docs) (l2n (vocab docs) (tfidfRow docs d₁))
    (l2n (vocab docs) (tfidfRow docs d₂))

/-! ## The script's functions -/

/-- The errors the pipeline can produce.  The code itself only ever raises
scikit-learn's `ValueError` for an empty fitted vocabulary; `invalidInput`
is the dedicated nothing-to-score kind that the spec's error taxonomy
(§7) asks for, and is never produced by the code. -/
inductive ScoreError
  | emptyVocabulary
  | invalidInput
deriving DecidableEq

/-- Per-candidate mean similarity against the whole batch,
`(np.sum(similarities) - 1) / (len(similarities) - 1)` guarded by
`if len(similarities) > 1 else 0`, for the row of one document. -/
noncomputable def consensusOf (docs : List (List String))
    (d : List String) : ℝ :=
  if 1 < (docs.map (cosineSim docs d)).length then
    ((docs.map (cosineSim docs d)).sum - 1)
      / (((docs.map (cosineSim docs d)).length : ℝ) - 1)
  else 0

/-- `calculate_consensus_similarity`: fit a TF-IDF space on the candidate
texts only and average each candidate's cosine row over the others.  Row
`i` of the matrix is the TF-IDF row of the `i`-th text, so the entry for
each filename is `consensusOf` of its own token list.  The fit raises when
no candidate contributes a token. -/
noncomputable def calculate_consensus_similarity
    (texts : List (String × String)) :
    Except ScoreError (List (String × ℝ)) :=
  if vocab (docsOf texts) = ∅ then .error .emptyVocabulary
  else .ok (texts.map fun nb =>
    (nb.1, consensusOf (docsOf texts) (skTokens nb.2)))

/-- `calculate_prompt_similarity`: fit a second TF-IDF space on
`[prompt] + list(texts.values())` and compare row `0` (the prompt) with
row `i` (the `i`-th candidate). -/
noncomputable def calculate_prompt_similarity (prompt : String)
    (texts : List (String × String)) :
    Except ScoreError (List (String × ℝ)) :=
  if vocab (skTokens prompt :: docsOf texts) = ∅ then .error .emptyVocabulary
  else .ok (texts.map fun nb =>
    (nb.1, cosineSim (skTokens prompt :: docsOf texts) (skTokens prompt)
      (skTokens nb.2)))

/-- The bigram-string list `' '.join(words[i:i+2]) for i in
range(len(words)-1)`, written as the sliding window
`words.zip words.tail`. -/
def pyBigrams (words : List String) : List String :=
  (words.zip words.tail).map (fun p => p.1 ++ " " ++ p.2)

/-- `calculate_repetition_rate`: lowercase, whitespace-split, form the
adjacent bigrams, and return `1 - unique_bigrams / len(bigrams)` (with the
two short-text guards of the source; `set(bigrams)` is `toFinset`). -/
noncomputable def calculate_repetition_rate (text : String) : ℝ :=
  if (pyWords text).length < 2 then 0
  else if (pyBigrams (pyWords text)).length = 0 then 0
  else 1 - (((pyBigrams (pyWords text)).toFinset.card : ℝ)
      / ((pyBigrams (pyWords text)).length : ℝ))

/-- Python's `round(x, 4)`. -/
noncomputable def round4 (x : ℝ) : ℝ := ((round (x * 10000) : ℤ) : ℝ) / 10000

/-- One result row of `calculate_metrics`. -/
structure ScoreRecord where
  model_name : String
  consensus_similarity : ℝ
  prompt_similarity : ℝ
  w_rep_inv : ℝ
  final_consensus_score : ℝ

/-- The dictionary built for one candidate inside the loop of
`calculate_metrics`: `consensus_scores[filename]` and
`prompt_scores[filename]` are association-list lookups here (a Python
dict's keys are unique, so the `getD 0` default is never reached on inputs
that actually represent a dict); `w_rep_inv = 1 - repetition_rate` and the
final score is the 0.4/0.3/0.3 combination of the unrounded values, every
reported field being rounded to 4 digits. -/
noncomputable def metricsRow (cs ps : List (String × ℝ))
    (nb : String × String) : ScoreRecord :=
  { model_name := nb.1
    consensus_similarity := round4 ((cs.lookup nb.1).getD 0)
    prompt_similarity := round4 ((ps.lookup nb.1).getD 0)
    w_rep_inv := round4 (1 - calculate_repetition_rate nb.2)
    final_consensus_score := round4 (0.4 * ((cs.lookup nb.1).getD 0)
      + 0.3 * ((ps.lookup nb.1).getD 0)
      + 0.3 * (1 - calculate_repetition_rate nb.2)) }

/-- `calculate_metrics`: run both similarity computations (consensus first,
as in the source, so its exception wins), then combine row by row over the
candidate mapping in iteration order. -/
noncomputable def calculate_metrics (prompt : String)
    (texts : List (String × String)) :
    Except ScoreError (List ScoreRecord) :=
  match calculate_consensus_similarity texts,
      calculate_prompt_similarity prompt texts with
  | .error e, _ => .error e
  | .ok _, .error e => .error e
  | .ok cs, .ok ps => .ok (texts.map (metricsRow cs ps))

/-! ## Basic facts about the vector space -/

theorem df_le_length (t : String) (docs : List (List String)) :
    df t docs ≤ docs.length :=
  List.countP_le_length _

theorem idf_pos (t : String) (docs : List (List String)) :
    0 < idf t docs := by
  have hdf : (df t docs : ℝ) ≤ (docs.length : ℝ) := by
    exact_mod_cast df_le_length t docs
  have h1 : (0 : ℝ) < 1 + (df t docs : ℝ) := by positivity
  have h2 : (1 : ℝ) ≤ (1 + (docs.length : ℝ)) / (1 + (df t docs : ℝ)) := by
    rw [le_div_iff₀ h1]; linarith
  have := Real.log_nonneg h2
  unfold idf; linarith

theorem rawTfidf_nonneg (docs : List (List String)) (d : List String)
    (t : String) : 0 ≤ rawTfidf docs d t :=
  mul_nonneg (Nat.cast_nonneg _) (idf_pos t docs).le

theorem normSq_nonneg (V : Finset String) (v : String → ℝ) :
    0 ≤ normSq V v :=
  Finset.sum_nonneg fun _ _ => sq_nonneg _

theorem sqrt_normSq_eq_zero_iff (V : Finset String) (v : String → ℝ) :
    Real.sqrt (normSq V v) = 0 ↔ normSq V v = 0 := by
  constructor
  · intro h
    exact le_antisymm (Real.sqrt_eq_zero'.mp h) (normSq_nonneg V v)
  · intro h; rw [h, Real.sqrt_zero]

theorem l2n_nonneg (V : Finset String) (v : String → ℝ)
    (hv : ∀ t, 0 ≤ v t) (t : String) : 0 ≤ l2n V v t := by
  unfold l2n
  split
  · exact hv t
  · exact div_nonneg (hv t) (Real.sqrt_nonneg _)

theorem normSq_l2n_of_ne (V : Finset String) (v : String → ℝ)
    (h : Real.sqrt (normSq V v) ≠ 0) : normSq V (l2n V v) = 1 := by
  have hS : normSq V v ≠ 0 := fun h0 => h ((sqrt_normSq_eq_zero_iff V v).mpr h0)
  have hsq : Real.sqrt (normSq V v) ^ 2 = normSq V v :=
    Real.sq_sqrt (normSq_nonneg V v)
  have hl : l2n V v = fun t => v t / Real.sqrt (normSq V v) := by
    unfold l2n
    rw [if_neg h]
  have key : normSq V (fun t => v t / Real.sqrt (normSq V v))
      = normSq V v / Real.sqrt (normSq V v) ^ 2 := by
    unfold normSq
    simp only [div_pow]
    rw [Finset.sum_div]
  rw [hl, key, hsq, div_self hS]

theorem normSq_l2n_le_one (V : Finset String) (v : String → ℝ) :
    normSq V (l2n V v) ≤ 1 := by
  by_cases h : Real.sqrt (normSq V v) = 0
  · have h0 : normSq V v = 0 := (sqrt_normSq_eq_zero_iff V v).mp h
    unfold l2n
    rw [if_pos h, h0]
    norm_num
  · rw [normSq_l2n_of_ne V v h]

theorem l2n_of_normSq_eq_zero (V : Finset String) (v : String → ℝ)
    (h : normSq V v = 0) : l2n V v = v := by
  unfold l2n
  rw [if_pos ((sqrt_normSq_eq_zero_iff V v).mpr h)]

theorem l2n_of_normSq_eq_one (V : Finset String) (v : String → ℝ)
    (h : normSq V v = 1) : l2n V v = v := by
  have hs : Real.sqrt (normSq V v) = 1 := by rw [h, Real.sqrt_one]
  unfold l2n
  rw [if_neg (by rw [hs]; norm_num)]
  funext t
  rw [hs, div_one]

/-- A TF-IDF row is already normalised (unit norm or zero), so the second
normalisation inside `cosine_similarity` leaves it unchanged. -/
theorem l2n_tfidfRow (docs : List (List String)) (d : List String) :
    l2n (vocab docs) (tfidfRow docs d) = tfidfRow docs d := by
  by_cases h : Real.sqrt (normSq (vocab docs) (rawTfidf docs d)) = 0
  · have h0 := (sqrt_normSq_eq_zero_iff _ _).mp h
    have hrow : tfidfRow docs d = rawTfidf docs d := by
      unfold tfidfRow
      exact l2n_of_normSq_eq_zero _ _ h0
    rw [hrow]
    exact l2n_of_normSq_eq_zero _ _ h0
  · exact l2n_of_normSq_eq_one _ _ (normSq_l2n_of_ne _ _ h)

theorem cosineSim_eq_dotp (docs : List (List String)) (d₁ d₂ : List String) :
    cosineSim docs d₁ d₂
      = dotp (vocab docs) (tfidfRow docs d₁) (tfidfRow docs d₂) := by
  unfold cosineSim
  rw [l2n_tfidfRow, l2n_tfidfRow]

theorem dotp_self_eq_normSq (V : Finset String) (v : String → ℝ) :
    dotp V v v = normSq V v :=
  Finset.sum_congr rfl fun t _ => (sq (v t)).symm

theorem tfidfRow_nonneg (docs : List (List String)) (d : List String)
    (t : String) : 0 ≤ tfidfRow docs d t :=
  l2n_nonneg _ _ (rawTfidf_nonneg docs d) t

theorem normSq_tfidfRow_le_one (docs : List (List String)) (d : List String) :
    normSq (vocab docs) (tfidfRow docs d) ≤ 1 :=
  normSq_l2n_le_one _ _

theorem cosineSim_nonneg (docs : List (List String)) (d₁ d₂ : List String) :
    0 ≤ cosineSim docs d₁ d₂ := by
  rw [cosineSim_eq_dotp]
  exact Finset.sum_nonneg fun t _ =>
    mul_nonneg (tfidfRow_nonneg docs d₁ t) (tfidfRow_nonneg docs d₂ t)

theorem cosineSim_le_one (docs : List (List String)) (d₁ d₂ : List String) :
    cosineSim docs d₁ d₂ ≤ 1 := by
  rw [cosineSim_eq_dotp]
  have hcs := Finset.sum_mul_sq_le_sq_mul_sq (vocab docs)
    (tfidfRow docs d₁) (tfidfRow docs d₂)
  have h₁ := normSq_tfidfRow_le_one docs d₁
  have h₂ := normSq_tfidfRow_le_one docs d₂
  have h₁0 := normSq_nonneg (vocab docs) (tfidfRow docs d₁)
  have h₂0 := normSq_nonneg (vocab docs) (tfidfRow docs d₂)
  have hd : 0 ≤ dotp (vocab docs) (tfidfRow docs d₁) (tfidfRow docs d₂) :=
    Finset.sum_nonneg fun t _ =>
      mul_nonneg (tfidfRow_nonneg docs d₁ t) (tfidfRow_nonneg docs d₂ t)
  unfold dotp at hd ⊢
  unfold normSq at h₁ h₂ h₁0 h₂0
  nlinarith [hcs]

/-- A candidate that contributes at least one token has self-similarity
exactly 1. -/
theorem cosineSim_self (docs : List (List String)) (d : List String)
    (hd : d ∈ docs) (hne : d ≠ []) : cosineSim docs d d = 1 := by
  obtain ⟨t, ht⟩ := List.exists_mem_of_ne_nil d hne
  have htv : t ∈ vocab docs := by
    unfold vocab
    rw [List.mem_toFinset, List.mem_flatten]
    exact ⟨d, hd, ht⟩
  have hraw : 0 < rawTfidf docs d t := by
    have : 0 < tf t d := List.count_pos_iff.mpr ht
    exact mul_pos (by exact_mod_cast this) (idf_pos t docs)
  have hS : 0 < normSq (vocab docs) (rawTfidf docs d) := by
    have hle : rawTfidf docs d t ^ 2
        ≤ normSq (vocab docs) (rawTfidf docs d) :=
      Finset.single_le_sum (fun s _ => sq_nonneg (rawTfidf docs d s)) htv
    nlinarith
  have hsne : Real.sqrt (normSq (vocab docs) (rawTfidf docs d)) ≠ 0 :=
    ne_of_gt (Real.sqrt_pos.mpr hS)
  rw [cosineSim_eq_dotp, dotp_self_eq_normSq]
  unfold tfidfRow
  exact normSq_l2n_of_ne _ _ hsne

/-! ## Token-less documents give zero rows -/

theorem rawTfidf_nil (docs : List (List String)) :
    rawTfidf docs [] = fun _ => 0 := by
  funext t
  unfold rawTfidf tf
  simp

theorem tfidfRow_nil (docs : List (List String)) :
    tfidfRow docs [] = fun _ => 0 := by
  unfold tfidfRow
  rw [rawTfidf_nil]
  have h0 : normSq (vocab docs) (fun _ => (0 : ℝ)) = 0 := by
    unfold normSq; simp
  rw [l2n_of_normSq_eq_zero _ _ h0]

theorem cosineSim_nil_left (docs : List (List String)) (d : List String) :
    cosineSim docs [] d = 0 := by
  rw [cosineSim_eq_dotp, tfidfRow_nil]
  unfold dotp
  simp

theorem cosineSim_nil_right (docs : List (List String)) (d : List String) :
    cosineSim docs d [] = 0 := by
  rw [cosineSim_eq_dotp, tfidfRow_nil]
  unfold dotp
  simp

/-! ## Bounds on the consensus average -/

theorem consensusOf_bounds (docs : List (List String)) (d : List String)
    (hd : d ∈ docs) (hne : d ≠ []) :
    0 ≤ consensusOf docs d ∧ consensusOf docs d ≤ 1 := by
  have hlen : (docs.map (cosineSim docs d)).length = docs.length :=
    List.length_map _ _
  by_cases hN : 1 < docs.length
  · have hcond : 1 < (docs.map (cosineSim docs d)).length := by
      rw [hlen]; exact hN
    have hnn : ∀ x ∈ docs.map (cosineSim docs d), 0 ≤ x := by
      intro x hx
      obtain ⟨d', _, rfl⟩ := List.mem_map.mp hx
      exact cosineSim_nonneg docs d d'
    have hone : ∀ x ∈ docs.map (cosineSim docs d), x ≤ 1 := by
      intro x hx
      obtain ⟨d', _, rfl⟩ := List.mem_map.mp hx
      exact cosineSim_le_one docs d d'
    have hmem : cosineSim docs d d ∈ docs.map (cosineSim docs d) :=
      List.mem_map_of_mem _ hd
    have hsum1 : (1 : ℝ) ≤ (docs.map (cosineSim docs d)).sum := by
      have := List.single_le_sum hnn _ hmem
      rwa [cosineSim_self docs d hd hne] at this
    have hsumN : (docs.map (cosineSim docs d)).sum
        ≤ ((docs.map (cosineSim docs d)).length : ℝ) := by
      have := List.sum_le_card_nsmul (docs.map (cosineSim docs d)) 1 hone
      simpa using this
    have hNR : (1 : ℝ) < ((docs.map (cosineSim docs d)).length : ℝ) := by
      exact_mod_cast hcond
    unfold consensusOf
    rw [if_pos hcond]
    constructor
    · exact div_nonneg (by linarith) (by linarith)
    · rw [div_le_one (by linarith)]
      linarith
  · have hcond : ¬ 1 < (docs.map (cosineSim docs d)).length := by
      rw [hlen]; exact hN
    unfold consensusOf
    rw [if_neg hcond]
    norm_num

/-! ## The vocabulary -/

theorem vocab_cons (d : List String) (docs : List (List String)) :
    vocab (d :: docs) = d.toFinset ∪ vocab docs := by
  unfold vocab
  rw [List.flatten_cons, List.toFinset_append]

theorem mem_vocab_of_mem {t : String} {d : List String}
    {docs : List (List String)} (hd : d ∈ docs) (ht : t ∈ d) :
    t ∈ vocab docs := by
  unfold vocab
  rw [List.mem_toFinset, List.mem_flatten]
  exact ⟨d, hd, ht⟩

theorem vocab_ne_empty (texts : List (String × String)) (hne : texts ≠ [])
    (hc : ∀ nb ∈ texts, skTokens nb.2 ≠ []) :
    vocab (docsOf texts) ≠ ∅ := by
  obtain ⟨nb, hnb⟩ := List.exists_mem_of_ne_nil texts hne
  obtain ⟨t, ht⟩ := List.exists_mem_of_ne_nil _ (hc nb hnb)
  intro h
  have htv : t ∈ vocab (docsOf texts) :=
    mem_vocab_of_mem (List.mem_map_of_mem _ hnb) ht
  rw [h] at htv
  exact Finset.not_mem_empty t htv

theorem vocab_cons_ne_empty (d : List String) (docs : List (List String))
    (h : vocab docs ≠ ∅) : vocab (d :: docs) ≠ ∅ := by
  rw [vocab_cons]
  intro hu
  exact h (Finset.union_eq_empty.mp hu).2

/-! ## Association-list lookups -/

/-- Any value found by `lookup` in a keyed map over `l` is the image of
some entry of `l` with that key. -/
theorem lookup_map_keyed {β : Type} (g : String → β)
    (l : List (String × String)) (name : String) (v : β)
    (h : List.lookup name (l.map fun nb => (nb.1, g nb.2)) = some v) :
    ∃ b, (name, b) ∈ l ∧ v = g b := by
  induction l with
  | nil => simp at h
  | cons hd tl ih =>
    rw [List.map_cons, List.lookup_cons] at h
    cases hbeq : name == hd.1 with
    | true =>
      rw [hbeq] at h
      have hv : v = g hd.2 := by
        injection h with h'
        exact h'.symm
      have hk : name = hd.1 := eq_of_beq hbeq
      refine ⟨hd.2, ?_, hv⟩
      rw [hk, Prod.mk.eta]
      exact List.mem_cons_self hd tl
    | false =>
      rw [hbeq] at h
      obtain ⟨b, hm, hv⟩ := ih h
      exact ⟨b, List.mem_cons_of_mem hd hm, hv⟩

/-- With duplicate-free keys (as in a Python dict), `lookup` is invariant
under permutation of the association list. -/
theorem lookup_perm_nodup {β : Type} (a : String) :
    ∀ {l₁ l₂ : List (String × β)}, l₁.Perm l₂ →
      (l₁.map Prod.fst).Nodup → List.lookup a l₁ = List.lookup a l₂ := by
  intro l₁ l₂ hp
  induction hp with
  | nil => intro _; rfl
  | cons x h ih =>
    intro hnd
    rw [List.map_cons, List.nodup_cons] at hnd
    obtain ⟨x₁, x₂⟩ := x
    rw [List.lookup_cons, List.lookup_cons]
    cases hbeq : a == x₁ with
    | true => rfl
    | false => exact ih hnd.2
  | swap x y l =>
    intro hnd
    obtain ⟨x₁, x₂⟩ := x
    obtain ⟨y₁, y₂⟩ := y
    rw [List.map_cons, List.map_cons, List.nodup_cons] at hnd
    have hxy : y₁ ≠ x₁ := by
      intro hcon
      exact hnd.1 (by rw [hcon]; exact List.mem_cons_self x₁ _)
    rw [List.lookup_cons, List.lookup_cons, List.lookup_cons,
      List.lookup_cons]
    cases hbeq₁ : a == y₁ with
    | true =>
      have hay : a = y₁ := eq_of_beq hbeq₁
      have hbeq₂ : (a == x₁) = false := by
        rw [hay]
        exact beq_false_of_ne hxy
      rw [hbeq₂]
    | false =>
      cases hbeq₂ : a == x₁ with
      | true => rfl
      | false => rfl
  | trans p₁ p₂ ih₁ ih₂ =>
    intro hnd
    have hnd' := ((p₁.map Prod.fst).nodup_iff).mp hnd
    rw [ih₁ hnd, ih₂ hnd']

/-! ## Rounding -/

theorem round4_zero : round4 0 = 0 := by
  simp [round4]

theorem round4_mem (x : ℝ) (h0 : 0 ≤ x) (h1 : x ≤ 1) :
    0 ≤ round4 x ∧ round4 x ≤ 1 := by
  have hl : (0 : ℤ) ≤ round (x * 10000) := by
    rw [round_eq]
    exact Int.floor_nonneg.mpr (by nlinarith)
  have hu : round (x * 10000) ≤ 10000 := by
    rw [round_eq]
    have hlt : ⌊x * 10000 + 1 / 2⌋ < 10001 := Int.floor_lt.mpr (by push_cast; nlinarith)
    omega
  constructor
  · exact div_nonneg (by exact_mod_cast hl) (by norm_num)
  · unfold round4
    rw [div_le_one (by norm_num)]
    exact_mod_cast hu

/-! ## Invariance of the vector space under permutation of the corpus -/

theorem vocab_perm {docs₁ docs₂ : List (List String)}
    (h : docs₁.Perm docs₂) : vocab docs₁ = vocab docs₂ := by
  unfold vocab
  ext t
  simp only [List.mem_toFinset, List.mem_flatten]
  constructor <;> rintro ⟨d, hd, ht⟩
  · exact ⟨d, h.mem_iff.mp hd, ht⟩
  · exact ⟨d, h.mem_iff.mpr hd, ht⟩

theorem df_perm (t : String) {docs₁ docs₂ : List (List String)}
    (h : docs₁.Perm docs₂) : df t docs₁ = df t docs₂ :=
  h.countP_eq _

theorem idf_perm (t : String) {docs₁ docs₂ : List (List String)}
    (h : docs₁.Perm docs₂) : idf t docs₁ = idf t docs₂ := by
  unfold idf
  rw [df_perm t h, h.length_eq]

theorem rawTfidf_perm {docs₁ docs₂ : List (List String)}
    (h : docs₁.Perm docs₂) (d : List String) :
    rawTfidf docs₁ d = rawTfidf docs₂ d := by
  funext t
  unfold rawTfidf
  rw [idf_perm t h]

theorem tfidfRow_perm {docs₁ docs₂ : List (List String)}
    (h : docs₁.Perm docs₂) (d : List String) :
    tfidfRow docs₁ d = tfidfRow docs₂ d := by
  unfold tfidfRow
  rw [vocab_perm h, rawTfidf_perm h d]

theorem cosineSim_perm {docs₁ docs₂ : List (List String)}
    (h : docs₁.Perm docs₂) (d₁ d₂ : List String) :
    cosineSim docs₁ d₁ d₂ = cosineSim docs₂ d₁ d₂ := by
  unfold cosineSim
  rw [vocab_perm h, tfidfRow_perm h d₁, tfidfRow_perm h d₂]

theorem consensusOf_perm {docs₁ docs₂ : List (List String)}
    (h : docs₁.Perm docs₂) (d : List String) :
    consensusOf docs₁ d = consensusOf docs₂ d := by
  have hmap : docs₁.map (cosineSim docs₁ d) = docs₁.map (cosineSim docs₂ d) :=
    List.map_congr_left fun d' _ => cosineSim_perm h d d'
  have hp : (docs₁.map (cosineSim docs₂ d)).Perm
      (docs₂.map (cosineSim docs₂ d)) := h.map _
  unfold consensusOf
  rw [hmap, hp.sum_eq, hp.length_eq]

/-! ## Words produced by splitting contain no separator -/

theorem splitAcc_no_sep (sep : Char → Bool) :
    ∀ (l acc : List Char), (∀ c ∈ acc, sep c = false) →
      ∀ w ∈ splitAcc sep l acc, ∀ c ∈ w, sep c = false := by
  intro l
  induction l with
  | nil =>
    intro acc hacc w hw c hc
    unfold splitAcc at hw
    by_cases hae : acc = []
    · rw [if_pos hae] at hw
      exact absurd hw (List.not_mem_nil w)
    · rw [if_neg hae] at hw
      rcases List.mem_cons.mp hw with rfl | hw'
      · exact hacc c (List.mem_reverse.mp hc)
      · exact absurd hw' (List.not_mem_nil w)
  | cons ch cs ih =>
    intro acc hacc w hw c hc
    unfold splitAcc at hw
    by_cases hsep : sep ch
    · rw [if_pos hsep] at hw
      by_cases hae : acc = []
      · rw [if_pos hae] at hw
        exact ih [] (by simp) w hw c hc
      · rw [if_neg hae] at hw
        rcases List.mem_cons.mp hw with rfl | hw'
        · exact hacc c (List.mem_reverse.mp hc)
        · exact ih [] (by simp) w hw' c hc
    · rw [if_neg hsep] at hw
      refine ih (ch :: acc) ?_ w hw c hc
      intro c' hc'
      rcases List.mem_cons.mp hc' with rfl | h'
      · exact Bool.eq_false_iff.mpr hsep
      · exact hacc c' h'

theorem pyWords_no_space (s : String) (w : String) (hw : w ∈ pyWords s) :
    ' ' ∉ w.data := by
  unfold pyWords splitChars at hw
  obtain ⟨piece, hp, rfl⟩ := List.mem_map.mp hw
  intro hsp
  have hmem : (' ' : Char) ∈ piece := hsp
  have := splitAcc_no_sep Char.isWhitespace (lowerStr s).data []
    (by simp) piece hp ' ' hmem
  exact absurd this (by decide)

/-! ## `' '.join` is injective on space-free words -/

theorem append_space_inj : ∀ (l₁ l₃ l₂ l₄ : List Char),
    ' ' ∉ l₁ → ' ' ∉ l₃ → l₁ ++ ' ' :: l₂ = l₃ ++ ' ' :: l₄ →
      l₁ = l₃ ∧ l₂ = l₄ := by
  intro l₁
  induction l₁ with
  | nil =>
    intro l₃ l₂ l₄ _ h₃ heq
    cases l₃ with
    | nil =>
      rw [List.nil_append, List.nil_append] at heq
      injection heq with _ h2
      exact ⟨rfl, h2⟩
    | cons c t =>
      rw [List.nil_append, List.cons_append] at heq
      injection heq with h1 _
      exact absurd (h1 ▸ List.mem_cons_self c t) h₃
  | cons a as ih =>
    intro l₃ l₂ l₄ h₁ h₃ heq
    cases l₃ with
    | nil =>
      rw [List.cons_append, List.nil_append] at heq
      injection heq with h1 _
      exact absurd (h1 ▸ List.mem_cons_self a as) h₁
    | cons c t =>
      rw [List.cons_append, List.cons_append] at heq
      injection heq with h1 h2
      obtain ⟨e1, e2⟩ := ih t l₂ l₄
        (fun h => h₁ (List.mem_cons_of_mem a h))
        (fun h => h₃ (List.mem_cons_of_mem c h)) h2
      rw [h1, e1, e2]
      exact ⟨rfl, rfl⟩

theorem string_data_append (s t : String) : (s ++ t).data = s.data ++ t.data :=
  rfl

theorem join_space_inj (a b c d : String) (ha : ' ' ∉ a.data)
    (hc : ' ' ∉ c.data) (h : a ++ " " ++ b = c ++ " " ++ d) :
    a = c ∧ b = d := by
  have hdata : a.data ++ ' ' :: b.data = c.data ++ ' ' :: d.data := by
    have h' := congrArg String.data h
    rw [string_data_append, string_data_append, string_data_append,
      string_data_append] at h'
    simpa using h'
  obtain ⟨h1, h2⟩ := append_space_inj a.data c.data b.data d.data ha hc hdata
  exact ⟨congrArg String.mk h1, congrArg String.mk h2⟩

/-- The number of distinct joined bigram strings equals the number of
distinct adjacent word pairs, because the words of a whitespace split
contain no space and `' '.join` is therefore injective on them. -/
theorem toFinset_map_pairs (l : List (String × String))
    (f : String × String → String) :
    (l.map f).toFinset = l.toFinset.image f := by
  ext x
  simp [List.mem_toFinset, List.mem_map, Finset.mem_image]

theorem bigram_card_eq (words : List String)
    (hws : ∀ w ∈ words, ' ' ∉ w.data) :
    ((words.zip words.tail).map (fun p => p.1 ++ " " ++ p.2)).toFinset.card
      = (words.zip words.tail).toFinset.card := by
  rw [toFinset_map_pairs]
  apply Finset.card_image_of_injOn
  intro p hp q hq heq
  rw [Finset.mem_coe, List.mem_toFinset] at hp hq
  obtain ⟨p₁, p₂⟩ := p
  obtain ⟨q₁, q₂⟩ := q
  have hp1 : p₁ ∈ words := (List.of_mem_zip hp).1
  have hq1 : q₁ ∈ words := (List.of_mem_zip hq).1
  obtain ⟨e1, e2⟩ := join_space_inj p₁ p₂ q₁ q₂ (hws p₁ hp1) (hws q₁ hq1) heq
  rw [e1, e2]

/-! ## Repetition-rate facts -/

theorem rep_rate_mem (text : String) :
    0 ≤ calculate_repetition_rate text ∧ calculate_repetition_rate text ≤ 1 := by
  unfold calculate_repetition_rate
  split_ifs with h1 h2
  · norm_num
  · norm_num
  · have hTpos : 0 < ((pyBigrams (pyWords text)).length : ℝ) := by
      have := Nat.pos_of_ne_zero h2
      exact_mod_cast this
    have hcard : ((pyBigrams (pyWords text)).toFinset.card : ℝ)
        ≤ ((pyBigrams (pyWords text)).length : ℝ) := by
      exact_mod_cast List.toFinset_card_le _
    have hdiv0 : 0 ≤ ((pyBigrams (pyWords text)).toFinset.card : ℝ)
        / ((pyBigrams (pyWords text)).length : ℝ) :=
      div_nonneg (by positivity) hTpos.le
    have hdiv1 : ((pyBigrams (pyWords text)).toFinset.card : ℝ)
        / ((pyBigrams (pyWords text)).length : ℝ) ≤ 1 := by
      rw [div_le_one hTpos]
      exact hcard
    constructor <;> linarith

/-! ## Claim C3 -/

/-- C3: for every candidate text, the repetition rate is
`1 - distinct adjacent word pairs / total adjacent word pairs`, where the
words come from lower-casing and whitespace-splitting the text and the
pairs are the sliding window of width 2 and stride 1 (`zip` with the
tail); the pair total is `len(words) - 1`; and a text with fewer than two
tokens has repetition rate `0`, so its repetition contribution to the
final score is exactly `0.3`. -/
theorem c3_repetition_rate (text : String) :
    ((pyWords text).length < 2 →
      calculate_repetition_rate text = 0 ∧
      0.3 * (1 - calculate_repetition_rate text) = (0.3 : ℝ))
    ∧ (2 ≤ (pyWords text).length →
      ((pyWords text).zip (pyWords text).tail).length
          = (pyWords text).length - 1 ∧
      calculate_repetition_rate text
        = 1 - ((((pyWords text).zip (pyWords text).tail).toFinset.card : ℝ)
            / ((((pyWords text).zip (pyWords text).tail).length : ℝ)))) := by
  constructor
  · intro h
    have h0 : calculate_repetition_rate text = 0 := by
      unfold calculate_repetition_rate
      rw [if_pos h]
    refine ⟨h0, ?_⟩
    rw [h0]
    norm_num
  · intro h
    have hlen : ((pyWords text).zip (pyWords text).tail).length
        = (pyWords text).length - 1 := by
      rw [List.length_zip, List.length_tail]
      exact min_eq_right (Nat.sub_le _ _)
    refine ⟨hlen, ?_⟩
    have hnot : ¬ (pyWords text).length < 2 := not_lt.mpr h
    have hblen : (pyBigrams (pyWords text)).length
        = ((pyWords text).zip (pyWords text).tail).length :=
      List.length_map _ _
    have hbne : ¬ (pyBigrams (pyWords text)).length = 0 := by
      rw [hblen, hlen]
      omega
    have hcard : (pyBigrams (pyWords text)).toFinset.card
        = ((pyWords text).zip (pyWords text).tail).toFinset.card :=
      bigram_card_eq (pyWords text) (pyWords_no_space text)
    unfold calculate_repetition_rate
    rw [if_neg hnot, if_neg hbne, hcard, hblen]

theorem c3_repetition_rate_witness :
    (calculate_repetition_rate "one" = 0 ∧
      0.3 * (1 - calculate_repetition_rate "one") = (0.3 : ℝ))
    ∧ (((pyWords "the cat the cat").zip (pyWords "the cat the cat").tail).length
          = (pyWords "the cat the cat").length - 1 ∧
      calculate_repetition_rate "the cat the cat"
        = 1 - ((((pyWords "the cat the cat").zip
              (pyWords "the cat the cat").tail).toFinset.card : ℝ)
            / ((((pyWords "the cat the cat").zip
              (pyWords "the cat the cat").tail).length : ℝ)))) :=
  ⟨(c3_repetition_rate "one").1 (by decide),
    (c3_repetition_rate "the cat the cat").2 (by decide)⟩

/-! ## Claim C5 (code bug): whitespace-only candidates make the scorer raise -/

/-- C5: the spec promises that empty or whitespace-only candidate texts
are handled without raising, but on a mapping whose only text is `" "`
the TF-IDF fit has an empty vocabulary and the scoring operation raises
(scikit-learn's `ValueError`), modelled here as `.error .emptyVocabulary`,
instead of returning a score for the candidate. -/
theorem c5_whitespace_candidates_raise :
    calculate_metrics "describe a cat" [("a", " ")]
      = .error .emptyVocabulary := by
  have hc : calculate_consensus_similarity [("a", " ")]
      = .error .emptyVocabulary := by
    unfold calculate_consensus_similarity
    rw [if_pos (by decide)]
  unfold calculate_metrics
  rw [hc]

/-! ## Claim C4 (corrected): the empty mapping fails, but not with a
dedicated `InvalidInput` kind -/

/-- C4 counterexample: on the empty candidate mapping the operation does
fail, but with the vectorizer's generic empty-vocabulary error, which is
not the dedicated `InvalidInput` (nothing-to-score) kind the claim
names. -/
theorem c4_counterexample :
    calculate_metrics "describe a cat" [] = .error .emptyVocabulary
    ∧ ScoreError.emptyVocabulary ≠ ScoreError.invalidInput := by
  constructor
  · have hc : calculate_consensus_similarity []
        = .error .emptyVocabulary := by
      unfold calculate_consensus_similarity
      rw [if_pos (by decide)]
    unfold calculate_metrics
    rw [hc]
  · decide

/-- C4 (amended): when the candidate mapping is empty the scoring
operation fails rather than returning a result, for every prompt — but
with the TF-IDF fit's generic empty-vocabulary error, not a dedicated
`InvalidInput` kind. -/
theorem c4_empty_mapping_fails (prompt : String) :
    calculate_metrics prompt [] = .error .emptyVocabulary := by
  have hc : calculate_consensus_similarity [] = .error .emptyVocabulary := by
    unfold calculate_consensus_similarity
    rw [if_pos (by decide)]
  unfold calculate_metrics
  rw [hc]

/-! ## Claim C7 (corrected): one record per candidate, when the fit succeeds -/

/-- C7 counterexample: a non-empty candidate mapping whose only text is
whitespace makes the operation fail, so it does not return one record per
input candidate. -/
theorem c7_counterexample :
    calculate_metrics "the prompt" [("only", " \t ")]
      = .error .emptyVocabulary := by
  have hc : calculate_consensus_similarity [("only", " \t ")]
      = .error .emptyVocabulary := by
    unfold calculate_consensus_similarity
    rw [if_pos (by decide)]
  unfold calculate_metrics
  rw [hc]

/-- C7 (amended): for every candidate mapping whose texts collectively
contain at least one recognisable token (non-empty fitted vocabulary), the
scoring operation succeeds and returns exactly one record per input
candidate, with matching identifiers, in input iteration order. -/
theorem c7_one_record_per_candidate (prompt : String)
    (texts : List (String × String)) (hv : vocab (docsOf texts) ≠ ∅) :
    ∃ res, calculate_metrics prompt texts = .ok res ∧
      res.map ScoreRecord.model_name = texts.map Prod.fst := by
  unfold calculate_metrics calculate_consensus_similarity
    calculate_prompt_similarity
  rw [if_neg hv, if_neg (vocab_cons_ne_empty _ _ hv)]
  refine ⟨_, rfl, ?_⟩
  rw [List.map_map]
  exact List.map_congr_left fun nb _ => rfl

theorem c7_one_record_per_candidate_witness :
    ∃ res, calculate_metrics "describe a cat"
        [("a", "the cat sat"), ("b", "the dog ran")] = .ok res ∧
      res.map ScoreRecord.model_name
        = [("a", "the cat sat"), ("b", "the dog ran")].map Prod.fst :=
  c7_one_record_per_candidate "describe a cat"
    [("a", "the cat sat"), ("b", "the dog ran")] (by decide)

/-! ## Claim C8 (corrected): empty prompt gives zero prompt similarity -/

/-- C8 counterexample: with the empty prompt and the non-empty candidate
mapping `{"a": ""}` the operation does fail (empty vocabulary), so "does
not fail" does not hold for every non-empty candidate set. -/
theorem c8_counterexample :
    calculate_metrics "" [("a", "")] = .error .emptyVocabulary := by
  have hc : calculate_consensus_similarity [("a", "")]
      = .error .emptyVocabulary := by
    unfold calculate_consensus_similarity
    rw [if_pos (by decide)]
  unfold calculate_metrics
  rw [hc]

/-- A keyed lookup over a map whose values are all zero yields zero
(whether or not the key is present). -/
theorem getD_lookup_zero (texts : List (String × String)) (g : String → ℝ)
    (hg : ∀ b, g b = 0) (name : String) :
    ((texts.map fun nb => (nb.1, g nb.2)).lookup name).getD 0 = 0 := by
  cases hlook : (texts.map fun nb => (nb.1, g nb.2)).lookup name with
  | none => rfl
  | some v =>
    obtain ⟨b, _, rfl⟩ := lookup_map_keyed g texts name v hlook
    simpa using hg b

/-- C8 (amended): when the prompt is the empty string and the candidate
texts collectively contain at least one recognisable token, the operation
does not fail and every candidate's reported prompt similarity is `0` (the
prompt's TF-IDF row is the zero vector). -/
theorem c8_empty_prompt_zero_similarity (texts : List (String × String))
    (hv : vocab (docsOf texts) ≠ ∅) :
    ∃ res, calculate_metrics "" texts = .ok res ∧
      ∀ r ∈ res, r.prompt_similarity = 0 := by
  unfold calculate_metrics calculate_consensus_similarity
    calculate_prompt_similarity
  rw [if_neg hv, if_neg (vocab_cons_ne_empty _ _ hv)]
  refine ⟨_, rfl, ?_⟩
  intro r hr
  obtain ⟨nb, hnb, rfl⟩ := List.mem_map.mp hr
  show round4 (((texts.map fun nb' => (nb'.1,
      cosineSim (skTokens "" :: docsOf texts) (skTokens "")
        (skTokens nb'.2))).lookup nb.1).getD 0) = 0
  rw [getD_lookup_zero texts
    (fun b => cosineSim (skTokens "" :: docsOf texts) (skTokens "")
      (skTokens b))
    (fun b => cosineSim_nil_left _ _) nb.1]
  exact round4_zero

theorem c8_empty_prompt_zero_similarity_witness :
    ∃ res, calculate_metrics "" [("a", "hello world")] = .ok res ∧
      ∀ r ∈ res, r.prompt_similarity = 0 :=
  c8_empty_prompt_zero_similarity [("a", "hello world")] (by decide)

/-! ## Constructor-level equations for the three operations -/

theorem calculate_consensus_ok (texts : List (String × String))
    (hv : vocab (docsOf texts) ≠ ∅) :
    calculate_consensus_similarity texts
      = .ok (texts.map fun nb =>
          (nb.1, consensusOf (docsOf texts) (skTokens nb.2))) := by
  unfold calculate_consensus_similarity
  rw [if_neg hv]

theorem calculate_prompt_ok (prompt : String)
    (texts : List (String × String))
    (hv : vocab (skTokens prompt :: docsOf texts) ≠ ∅) :
    calculate_prompt_similarity prompt texts
      = .ok (texts.map fun nb =>
          (nb.1, cosineSim (skTokens prompt :: docsOf texts)
            (skTokens prompt) (skTokens nb.2))) := by
  unfold calculate_prompt_similarity
  rw [if_neg hv]

theorem calculate_metrics_ok (prompt : String)
    (texts : List (String × String)) (cs ps : List (String × ℝ))
    (hc : calculate_consensus_similarity texts = .ok cs)
    (hp : calculate_prompt_similarity prompt texts = .ok ps) :
    calculate_metrics prompt texts = .ok (texts.map (metricsRow cs ps)) := by
  unfold calculate_metrics
  rw [hc, hp]

/-! ## Claim C9: consensus similarity does not depend on the prompt -/

/-- Project a metrics result onto the pairs
`(model_name, consensus_similarity)`. -/
noncomputable def consensusProj (e : Except ScoreError (List ScoreRecord)) :
    Except ScoreError (List (String × ℝ)) :=
  match e with
  | .error err => .error err
  | .ok res => .ok (res.map fun r => (r.model_name, r.consensus_similarity))

theorem consensusProj_ok (res : List ScoreRecord) :
    consensusProj (.ok res)
      = .ok (res.map fun r => (r.model_name, r.consensus_similarity)) := rfl

theorem consensusProj_ok_map (cs ps : List (String × ℝ))
    (texts : List (String × String)) :
    consensusProj (.ok (texts.map (metricsRow cs ps)))
      = .ok (texts.map fun nb =>
          (nb.1, round4 ((cs.lookup nb.1).getD 0))) := by
  rw [consensusProj_ok, List.map_map]
  exact congrArg Except.ok (List.map_congr_left fun nb _ => rfl)

/-- C9: two runs over the identical candidate mapping but arbitrary
different prompts produce identical consensus-similarity values for every
candidate (and identical error behaviour), because the candidate-only
TF-IDF space never sees the prompt. -/
theorem c9_consensus_ignores_prompt (p₁ p₂ : String)
    (texts : List (String × String)) :
    consensusProj (calculate_metrics p₁ texts)
      = consensusProj (calculate_metrics p₂ texts) := by
  by_cases hv : vocab (docsOf texts) = ∅
  · unfold calculate_metrics calculate_consensus_similarity
    rw [if_pos hv]
  · have hc := calculate_consensus_ok texts hv
    rw [calculate_metrics_ok p₁ texts _ _ hc
        (calculate_prompt_ok p₁ texts (vocab_cons_ne_empty _ _ hv)),
      calculate_metrics_ok p₂ texts _ _ hc
        (calculate_prompt_ok p₂ texts (vocab_cons_ne_empty _ _ hv)),
      consensusProj_ok_map, consensusProj_ok_map]

/-! ## Error-level equations for `calculate_metrics` -/

theorem calculate_metrics_err₁ (prompt : String)
    (texts : List (String × String)) (e : ScoreError)
    (hc : calculate_consensus_similarity texts = .error e) :
    calculate_metrics prompt texts = .error e := by
  unfold calculate_metrics
  rw [hc]

/-! ## Claim C1: the final score is the fixed affine combination -/

/-- C1: in every successful scoring run, each record's reported final
score is the 4-digit rounding of exactly
`0.4 * consensus + 0.3 * prompt + 0.3 * (1 - repetition_rate)` computed
from the full-precision (unrounded) sub-scores — the same unrounded values
whose roundings are reported in the other fields — and the three weights
sum to `1`. -/
theorem c1_final_score_formula (prompt : String)
    (texts : List (String × String)) (res : List ScoreRecord)
    (h : calculate_metrics prompt texts = .ok res) :
    (0.4 + 0.3 + 0.3 : ℝ) = 1 ∧
    ∀ r ∈ res, ∃ c p body,
      (r.model_name, body) ∈ texts ∧
      r.consensus_similarity = round4 c ∧
      r.prompt_similarity = round4 p ∧
      r.w_rep_inv = round4 (1 - calculate_repetition_rate body) ∧
      r.final_consensus_score
        = round4 (0.4 * c + 0.3 * p
            + 0.3 * (1 - calculate_repetition_rate body)) := by
  refine ⟨by norm_num, ?_⟩
  cases hc : calculate_consensus_similarity texts with
  | error e =>
    rw [calculate_metrics_err₁ prompt texts e hc] at h
    exact Except.noConfusion h
  | ok cs =>
    cases hp : calculate_prompt_similarity prompt texts with
    | error e =>
      have herr : calculate_metrics prompt texts = .error e := by
        unfold calculate_metrics
        rw [hc, hp]
      rw [herr] at h
      exact Except.noConfusion h
    | ok ps =>
      rw [calculate_metrics_ok prompt texts cs ps hc hp] at h
      have hres : texts.map (metricsRow cs ps) = res := by
        injection h
      subst hres
      intro r hr
      obtain ⟨nb, hnb, rfl⟩ := List.mem_map.mp hr
      refine ⟨(cs.lookup nb.1).getD 0, (ps.lookup nb.1).getD 0, nb.2,
        ?_, rfl, rfl, rfl, rfl⟩
      show ((nb.1 : String), nb.2) ∈ texts
      rw [Prod.mk.eta]
      exact hnb

theorem c1_final_score_formula_witness :
    ∃ res, calculate_metrics "describe a cat" [("a", "the cat sat")]
        = .ok res ∧
      ((0.4 + 0.3 + 0.3 : ℝ) = 1 ∧
      ∀ r ∈ res, ∃ c p body,
        (r.model_name, body) ∈ [("a", "the cat sat")] ∧
        r.consensus_similarity = round4 c ∧
        r.prompt_similarity = round4 p ∧
        r.w_rep_inv = round4 (1 - calculate_repetition_rate body) ∧
        r.final_consensus_score
          = round4 (0.4 * c + 0.3 * p
              + 0.3 * (1 - calculate_repetition_rate body))) := by
  have h := calculate_metrics_ok "describe a cat" [("a", "the cat sat")] _ _
    (calculate_consensus_ok [("a", "the cat sat")] (by decide))
    (calculate_prompt_ok "describe a cat" [("a", "the cat sat")] (by decide))
  exact ⟨_, h, c1_final_score_formula _ _ _ h⟩

/-! ## Claim C6: all reported fields lie in the unit interval -/

theorem getD_lookup_consensus_bounds (texts : List (String × String))
    (hc : ∀ nb ∈ texts, skTokens nb.2 ≠ []) (name : String) :
    0 ≤ (((texts.map fun nb =>
        (nb.1, consensusOf (docsOf texts) (skTokens nb.2))).lookup
          name).getD 0)
    ∧ (((texts.map fun nb =>
        (nb.1, consensusOf (docsOf texts) (skTokens nb.2))).lookup
          name).getD 0) ≤ 1 := by
  cases hlook : (texts.map fun nb =>
      (nb.1, consensusOf (docsOf texts) (skTokens nb.2))).lookup name with
  | none => exact ⟨le_refl 0, zero_le_one⟩
  | some v =>
    obtain ⟨b, hmem, rfl⟩ := lookup_map_keyed
      (fun b => consensusOf (docsOf texts) (skTokens b)) texts name v hlook
    have hd : skTokens b ∈ docsOf texts := List.mem_map_of_mem _ hmem
    exact consensusOf_bounds (docsOf texts) (skTokens b) hd (hc (name, b) hmem)

theorem getD_lookup_cos_bounds (A : List (List String))
    (ptok : List String) (texts : List (String × String)) (name : String) :
    0 ≤ (((texts.map fun nb =>
        (nb.1, cosineSim A ptok (skTokens nb.2))).lookup name).getD 0)
    ∧ (((texts.map fun nb =>
        (nb.1, cosineSim A ptok (skTokens nb.2))).lookup name).getD 0)
      ≤ 1 := by
  cases hlook : (texts.map fun nb =>
      (nb.1, cosineSim A ptok (skTokens nb.2))).lookup name with
  | none => exact ⟨le_refl 0, zero_le_one⟩
  | some v =>
    obtain ⟨b, _, rfl⟩ := lookup_map_keyed
      (fun b => cosineSim A ptok (skTokens b)) texts name v hlook
    exact ⟨cosineSim_nonneg A ptok (skTokens b),
      cosineSim_le_one A ptok (skTokens b)⟩

/-- C6: when the prompt and every candidate text contain at least one
recognisable token (real text) and the candidate set is non-empty, the
operation succeeds and all four reported numeric fields of every record —
consensus similarity, prompt similarity, inverse repetition rate and final
score — lie in `[0, 1]`. -/
theorem c6_scores_in_unit_interval (prompt : String)
    (texts : List (String × String)) (hp : skTokens prompt ≠ [])
    (hc : ∀ nb ∈ texts, skTokens nb.2 ≠ []) (hne : texts ≠ []) :
    ∃ res, calculate_metrics prompt texts = .ok res ∧
      ∀ r ∈ res,
        (0 ≤ r.consensus_similarity ∧ r.consensus_similarity ≤ 1) ∧
        (0 ≤ r.prompt_similarity ∧ r.prompt_similarity ≤ 1) ∧
        (0 ≤ r.w_rep_inv ∧ r.w_rep_inv ≤ 1) ∧
        (0 ≤ r.final_consensus_score ∧ r.final_consensus_score ≤ 1) := by
  have hv : vocab (docsOf texts) ≠ ∅ := vocab_ne_empty texts hne hc
  have h := calculate_metrics_ok prompt texts _ _
    (calculate_consensus_ok texts hv)
    (calculate_prompt_ok prompt texts (vocab_cons_ne_empty _ _ hv))
  refine ⟨_, h, ?_⟩
  intro r hr
  obtain ⟨nb, hnb, rfl⟩ := List.mem_map.mp hr
  have hcv := getD_lookup_consensus_bounds texts hc nb.1
  have hpv := getD_lookup_cos_bounds (skTokens prompt :: docsOf texts)
    (skTokens prompt) texts nb.1
  have hrep := rep_rate_mem nb.2
  have hw0 : 0 ≤ 1 - calculate_repetition_rate nb.2 := by linarith [hrep.2]
  have hw1 : 1 - calculate_repetition_rate nb.2 ≤ 1 := by linarith [hrep.1]
  refine ⟨?_, ?_, ?_, ?_⟩
  · exact round4_mem _ hcv.1 hcv.2
  · exact round4_mem _ hpv.1 hpv.2
  · exact round4_mem _ hw0 hw1
  · exact round4_mem _
      (by linarith [hcv.1, hpv.1, hw0])
      (by linarith [hcv.2, hpv.2, hw1])

theorem c6_scores_in_unit_interval_witness :
    ∃ res, calculate_metrics "describe a cat"
        [("a", "the cat sat"), ("b", "quantum entanglement defies locality")]
        = .ok res ∧
      ∀ r ∈ res,
        (0 ≤ r.consensus_similarity ∧ r.consensus_similarity ≤ 1) ∧
        (0 ≤ r.prompt_similarity ∧ r.prompt_similarity ≤ 1) ∧
        (0 ≤ r.w_rep_inv ∧ r.w_rep_inv ≤ 1) ∧
        (0 ≤ r.final_consensus_score ∧ r.final_consensus_score ≤ 1) :=
  c6_scores_in_unit_interval "describe a cat"
    [("a", "the cat sat"), ("b", "quantum entanglement defies locality")]
    (by decide) (by decide) (by decide)

/-! ## Claim C2 (corrected): the consensus average -/

/-- C2 counterexample: in the batch `{"a": "", "b": "hello world"}` the
token-less candidate `"a"` has self-similarity `0`, not `1`, so the code's
`(sum - 1)/(N - 1)` gives it consensus `-1` while the mean of the other
candidates' similarities to it is `0`: the claimed "mean of the others"
reading is false as stated. -/
theorem c2_counterexample :
    calculate_consensus_similarity [("a", ""), ("b", "hello world")]
      = .ok [("a", -1), ("b", 0)]
    ∧ cosineSim (docsOf [("a", ""), ("b", "hello world")])
        (skTokens "hello world") (skTokens "") = 0
    ∧ ((-1 : ℝ) ≠ 0) := by
  have hD : docsOf [("a", ""), ("b", "hello world")]
      = [[], ["hello", "world"]] := by decide
  have hT : skTokens "hello world" = ["hello", "world"] := by decide
  have hE : skTokens "" = ([] : List String) := rfl
  have hbb : cosineSim [[], ["hello", "world"]] ["hello", "world"]
      ["hello", "world"] = 1 :=
    cosineSim_self _ _ (by decide) (by decide)
  have hca : consensusOf [[], ["hello", "world"]] ([] : List String)
      = -1 := by
    have hmap : ([[], ["hello", "world"]] : List (List String)).map
        (cosineSim [[], ["hello", "world"]] ([] : List String))
        = [0, 0] := by
      rw [List.map_cons, List.map_cons, List.map_nil,
        cosineSim_nil_left, cosineSim_nil_left]
    unfold consensusOf
    rw [hmap]
    norm_num
  have hcb : consensusOf [[], ["hello", "world"]] ["hello", "world"]
      = 0 := by
    have hmap : ([[], ["hello", "world"]] : List (List String)).map
        (cosineSim [[], ["hello", "world"]] ["hello", "world"])
        = [0, 1] := by
      rw [List.map_cons, List.map_cons, List.map_nil,
        cosineSim_nil_right, hbb]
    unfold consensusOf
    rw [hmap]
    norm_num
  refine ⟨?_, ?_, by norm_num⟩
  · rw [calculate_consensus_ok _ (by decide)]
    simp only [List.map_cons, List.map_nil]
    rw [hD, hE, hT, hca, hcb]
  · rw [hD, hT, hE]
    exact cosineSim_nil_right _ _

/-- C2 (amended): provided the batch vectorises (some candidate has a
token), the code computes each candidate's consensus as
`(sum of its similarities to all N candidates - 1) / (N - 1)` for `N > 1`
and as `0` for `N = 1`; for a candidate that itself contains at least one
token the self-similarity is exactly `1`, so the `N > 1` value is the mean
of the *other* candidates' similarities to it.  (For a token-less
candidate the self-similarity is `0` and the value can drop below the mean
of the others — see the counterexample.) -/
theorem c2_consensus_formula (texts : List (String × String))
    (name body : String) (hmem : (name, body) ∈ texts)
    (hv : vocab (docsOf texts) ≠ ∅) (htok : skTokens body ≠ []) :
    calculate_consensus_similarity texts
      = .ok (texts.map fun nb =>
          (nb.1, consensusOf (docsOf texts) (skTokens nb.2)))
    ∧ (1 < texts.length →
        cosineSim (docsOf texts) (skTokens body) (skTokens body) = 1 ∧
        consensusOf (docsOf texts) (skTokens body)
          = (((docsOf texts).map
                (cosineSim (docsOf texts) (skTokens body))).sum
              - cosineSim (docsOf texts) (skTokens body) (skTokens body))
            / ((texts.length : ℝ) - 1))
    ∧ (texts.length = 1 →
        consensusOf (docsOf texts) (skTokens body) = 0) := by
  have hd : skTokens body ∈ docsOf texts := List.mem_map_of_mem _ hmem
  have hself := cosineSim_self (docsOf texts) (skTokens body) hd htok
  have hlen : (docsOf texts).length = texts.length := List.length_map _ _
  refine ⟨calculate_consensus_ok texts hv, ?_, ?_⟩
  · intro hN
    refine ⟨hself, ?_⟩
    have hcond : 1 < ((docsOf texts).map
        (cosineSim (docsOf texts) (skTokens body))).length := by
      rw [List.length_map, hlen]
      exact hN
    unfold consensusOf
    rw [if_pos hcond, hself, List.length_map, hlen]
  · intro h1
    have hcond : ¬ 1 < ((docsOf texts).map
        (cosineSim (docsOf texts) (skTokens body))).length := by
      rw [List.length_map, hlen, h1]
      norm_num
    unfold consensusOf
    rw [if_neg hcond]

theorem c2_consensus_formula_witness :
    calculate_consensus_similarity [("a", "hello world"), ("b", "hello there")]
      = .ok ([("a", "hello world"), ("b", "hello there")].map fun nb =>
          (nb.1, consensusOf
            (docsOf [("a", "hello world"), ("b", "hello there")])
            (skTokens nb.2)))
    ∧ (1 < ([("a", "hello world"), ("b", "hello there")] :
          List (String × String)).length →
        cosineSim (docsOf [("a", "hello world"), ("b", "hello there")])
          (skTokens "hello world") (skTokens "hello world") = 1 ∧
        consensusOf (docsOf [("a", "hello world"), ("b", "hello there")])
          (skTokens "hello world")
          = (((docsOf [("a", "hello world"), ("b", "hello there")]).map
                (cosineSim
                  (docsOf [("a", "hello world"), ("b", "hello there")])
                  (skTokens "hello world"))).sum
              - cosineSim (docsOf [("a", "hello world"), ("b", "hello there")])
                  (skTokens "hello world") (skTokens "hello world"))
            / ((([("a", "hello world"), ("b", "hello there")] :
                  List (String × String)).length : ℝ) - 1))
    ∧ (([("a", "hello world"), ("b", "hello there")] :
          List (String × String)).length = 1 →
        consensusOf (docsOf [("a", "hello world"), ("b", "hello there")])
          (skTokens "hello world") = 0) :=
  c2_consensus_formula [("a", "hello world"), ("b", "hello there")]
    "a" "hello world" (by decide) (by decide) (by decide)

/-! ## Claim C10: per-candidate scores are permutation invariant -/

/-- The four numeric fields of a record, keyed by its identifier. -/
def recKV (r : ScoreRecord) : String × (ℝ × ℝ × ℝ × ℝ) :=
  (r.model_name, (r.consensus_similarity, r.prompt_similarity,
    r.w_rep_inv, r.final_consensus_score))

/-- Look up one candidate's four numeric fields in a metrics result. -/
noncomputable def scoresFor (name : String)
    (e : Except ScoreError (List ScoreRecord)) :
    Except ScoreError (Option (ℝ × ℝ × ℝ × ℝ)) :=
  match e with
  | .error err => .error err
  | .ok res => .ok (List.lookup name (res.map recKV))

theorem scoresFor_ok (name : String) (res : List ScoreRecord) :
    scoresFor name (.ok res)
      = .ok (List.lookup name (res.map recKV)) := rfl

theorem map_fst_keyed_nodup {β : Type} (l : List (String × String))
    (f : String × String → String × β) (hf : ∀ nb, (f nb).1 = nb.1)
    (h : (l.map Prod.fst).Nodup) : ((l.map f).map Prod.fst).Nodup := by
  have he : (l.map f).map Prod.fst = l.map Prod.fst := by
    rw [List.map_map]
    exact List.map_congr_left fun nb _ => hf nb
  rw [he]
  exact h

/-- C10: for two orderings of the same duplicate-free candidate mapping
and the same prompt, every candidate id receives the same four numeric
values, and the two result sequences are permutations of each other (only
the output order changes); the error behaviour also coincides. -/
theorem c10_scores_permutation_invariant (prompt name : String)
    (l₁ l₂ : List (String × String)) (hperm : l₁.Perm l₂)
    (hnd : (l₁.map Prod.fst).Nodup) :
    scoresFor name (calculate_metrics prompt l₁)
      = scoresFor name (calculate_metrics prompt l₂)
    ∧ ∀ r₁ r₂, calculate_metrics prompt l₁ = .ok r₁ →
        calculate_metrics prompt l₂ = .ok r₂ → r₁.Perm r₂ := by
  have hd : (docsOf l₁).Perm (docsOf l₂) := hperm.map _
  by_cases hv : vocab (docsOf l₁) = ∅
  · have hv₂ : vocab (docsOf l₂) = ∅ := by
      rw [← vocab_perm hd]
      exact hv
    have he₁ : calculate_metrics prompt l₁ = .error .emptyVocabulary :=
      calculate_metrics_err₁ prompt l₁ _ (by
        unfold calculate_consensus_similarity
        rw [if_pos hv])
    have he₂ : calculate_metrics prompt l₂ = .error .emptyVocabulary :=
      calculate_metrics_err₁ prompt l₂ _ (by
        unfold calculate_consensus_similarity
        rw [if_pos hv₂])
    rw [he₁, he₂]
    exact ⟨rfl, fun r₁ r₂ h₁ _ => Except.noConfusion h₁⟩
  · have hv₂ : vocab (docsOf l₂) ≠ ∅ := by
      rw [← vocab_perm hd]
      exact hv
    have hgc : ∀ b : String, consensusOf (docsOf l₂) (skTokens b)
        = consensusOf (docsOf l₁) (skTokens b) :=
      fun b => consensusOf_perm hd.symm _
    have hgp : ∀ b : String,
        cosineSim (skTokens prompt :: docsOf l₂) (skTokens prompt)
          (skTokens b)
        = cosineSim (skTokens prompt :: docsOf l₁) (skTokens prompt)
          (skTokens b) :=
      fun b => cosineSim_perm (hd.symm.cons _) _ _
    have hcs2 : (l₂.map fun nb =>
          (nb.1, consensusOf (docsOf l₂) (skTokens nb.2)))
        = l₂.map fun nb =>
          (nb.1, consensusOf (docsOf l₁) (skTokens nb.2)) :=
      List.map_congr_left fun nb _ => by rw [hgc]
    have hps2 : (l₂.map fun nb =>
          (nb.1, cosineSim (skTokens prompt :: docsOf l₂)
            (skTokens prompt) (skTokens nb.2)))
        = l₂.map fun nb =>
          (nb.1, cosineSim (skTokens prompt :: docsOf l₁)
            (skTokens prompt) (skTokens nb.2)) :=
      List.map_congr_left fun nb _ => by rw [hgp]
    have hlc : ∀ a : String,
        List.lookup a (l₁.map fun nb =>
          (nb.1, consensusOf (docsOf l₁) (skTokens nb.2)))
        = List.lookup a (l₂.map fun nb =>
          (nb.1, consensusOf (docsOf l₂) (skTokens nb.2))) := by
      intro a
      rw [hcs2]
      exact lookup_perm_nodup a (hperm.map _)
        (map_fst_keyed_nodup l₁ _ (fun nb => rfl) hnd)
    have hlp : ∀ a : String,
        List.lookup a (l₁.map fun nb =>
          (nb.1, cosineSim (skTokens prompt :: docsOf l₁)
            (skTokens prompt) (skTokens nb.2)))
        = List.lookup a (l₂.map fun nb =>
          (nb.1, cosineSim (skTokens prompt :: docsOf l₂)
            (skTokens prompt) (skTokens nb.2))) := by
      intro a
      rw [hps2]
      exact lookup_perm_nodup a (hperm.map _)
        (map_fst_keyed_nodup l₁ _ (fun nb => rfl) hnd)
    have hrow : metricsRow
          (l₁.map fun nb =>
            (nb.1, consensusOf (docsOf l₁) (skTokens nb.2)))
          (l₁.map fun nb =>
            (nb.1, cosineSim (skTokens prompt :: docsOf l₁)
              (skTokens prompt) (skTokens nb.2)))
        = metricsRow
          (l₂.map fun nb =>
            (nb.1, consensusOf (docsOf l₂) (skTokens nb.2)))
          (l₂.map fun nb =>
            (nb.1, cosineSim (skTokens prompt :: docsOf l₂)
              (skTokens prompt) (skTokens nb.2))) := by
      funext nb
      unfold metricsRow
      rw [hlc nb.1, hlp nb.1]
    have h₁ := calculate_metrics_ok prompt l₁ _ _
      (calculate_consensus_ok l₁ hv)
      (calculate_prompt_ok prompt l₁ (vocab_cons_ne_empty _ _ hv))
    have h₂ := calculate_metrics_ok prompt l₂ _ _
      (calculate_consensus_ok l₂ hv₂)
      (calculate_prompt_ok prompt l₂ (vocab_cons_ne_empty _ _ hv₂))
    constructor
    · rw [h₁, h₂, scoresFor_ok, scoresFor_ok, List.map_map, List.map_map,
        hrow]
      refine congrArg Except.ok ?_
      exact lookup_perm_nodup name (hperm.map _)
        (map_fst_keyed_nodup l₁ _ (fun nb => rfl) hnd)
    · intro r₁ r₂ hh₁ hh₂
      rw [h₁] at hh₁
      rw [h₂] at hh₂
      injection hh₁ with e₁
      injection hh₂ with e₂
      rw [← e₁, ← e₂, hrow]
      exact hperm.map _

theorem c10_scores_permutation_invariant_witness :
    scoresFor "a" (calculate_metrics "describe a cat"
        [("a", "hello world"), ("b", "the cat sat")])
      = scoresFor "a" (calculate_metrics "describe a cat"
        [("b", "the cat sat"), ("a", "hello world")])
    ∧ ∀ r₁ r₂, calculate_metrics "describe a cat"
          [("a", "hello world"), ("b", "the cat sat")] = .ok r₁ →
        calculate_metrics "describe a cat"
          [("b", "the cat sat"), ("a", "hello world")] = .ok r₂ →
        r₁.Perm r₂ :=
  c10_scores_permutation_invariant "describe a cat" "a"
    [("a", "hello world"), ("b", "the cat sat")]
    [("b", "the cat sat"), ("a", "hello world")]
    (by decide) (by decide)
